import Mathlib

/-!
Verification of the MementoAI claim-resolution and scoring engine.

This file gives a shallow embedding, in Lean 4, of the deterministic core of
the repository: the cross-validator (src/src/cross_validator/validator.py),
the modular agent's conflict resolution and fact-key normalization
(src/modular_research_agent.py), and the resolution service's entity
matching, selectivity scoring and action planning (src/services/resolution.py).
Machine floats are modelled as rationals; Python dictionaries carrying a fixed
set of keys are modelled as structures of optional fields; operations that can
raise in Python (indexing an empty list) return Option.  String-valued
provenance fields that no verified computation reads (urls, titles, raw
snippets, timestamps) are projected away.
-/

namespace MementoAI

/-- Python min and max on floats, written with the decidable order on the
rationals so that concrete evaluations reduce. -/
def qmin (a b : ℚ) : ℚ := if a ≤ b then a else b

def qmax (a b : ℚ) : ℚ := if a ≤ b then b else a

/-- The five source types of src/src/models/__init__.py (SourceType enum). -/
inductive SourceType where
  | nytimes
  | ibm
  | nature
  | arxiv
  | uspto
deriving DecidableEq, Repr, Fintype

/-- All members of the SourceType enum; len(SourceType) = 5. -/
def SourceType.all : List SourceType :=
  [.nytimes, .ibm, .nature, .arxiv, .uspto]

/-- The source_credibility table built in CrossValidator.__init__
(src/src/cross_validator/validator.py lines 14-20).  Every enum member has an
entry, so the dict.get default of 0.5 is unreachable. -/
def source_credibility : SourceType → ℚ
  | .nature => 98/100
  | .ibm => 9/10
  | .uspto => 88/100
  | .nytimes => 85/100
  | .arxiv => 8/10

/-- A claim value (src/src/models Claim.value : Any).  The validator only
distinguishes dict values (with person/count/role/... keys) from other values,
so we model the tagged union the design notes ask for.  Only the keys the
validator reads or writes are retained. -/
structure ClaimDict where
  person : Option String
  count : Option Int
  role : Option String
  organization : Option String
  title : Option String
  patent_number : Option String
  notes : List String
deriving DecidableEq, Repr

inductive CValue where
  | scalar (s : String)
  | dict (d : ClaimDict)
deriving DecidableEq, Repr

/-- Appending a note to a claim value, as in validator.py lines 131-136 and
170-173: only dict values receive notes; other values are left unchanged. -/
def CValue.addNote (v : CValue) (note : String) : CValue :=
  match v with
  | .scalar s => .scalar s
  | .dict d => .dict { d with notes := d.notes ++ [note] }

/-- A provenance source (src/src/models Source).  Only the source_type field
is read by the validator's scoring logic. -/
structure VSource where
  source_type : SourceType
deriving DecidableEq, Repr

/-- A claim as consumed by the CrossValidator (src/src/models Claim).
pub_days_old models the temporal_context: `some d` when temporal_context
carries a parseable publication_date lying d days in the past (negative d for
a future date), `none` when temporal_context is absent, lacks the
publication_date key, or the date fails to parse (all of which the code maps
to the same default recency of 0.5). -/
structure VClaim where
  value : CValue
  confidence_score : ℚ
  sources : List VSource
  supporting_snippets : List String
  pub_days_old : Option ℤ
  human_reviewed : Bool
deriving DecidableEq, Repr

/-- Per-claim recency score, validator.py lines 31-41:
max(0.1, 1 - days_old/365) when a publication date is available, else 0.5. -/
def claimRecency (c : VClaim) : ℚ :=
  match c.pub_days_old with
  | some d => qmax (1/10) (1 - (d : ℚ)/365)
  | none => 1/2

/-- Reading claim.sources[0] for every claim of a group, as validator.py
lines 26-27 do; none models the IndexError Python raises when some claim has
an empty sources list. -/
def firstSources : List VClaim → Option (List VSource)
  | [] => some []
  | c :: cs =>
    match c.sources.head?, firstSources cs with
    | some s, some ss => some (s :: ss)
    | _, _ => none

/-- The source_authority local of calculate_confidence_score (validator.py
line 26): Python max over the credibility of each claim's first source. -/
def code_sourceAuthority (firsts : List VSource) : ℚ :=
  match firsts.map (fun s => source_credibility s.source_type) with
  | [] => 0
  | x :: xs => xs.foldl qmax x

/-- The independent_corroboration local (validator.py line 27): the Python
set() size over first-source types is the length of the deduplicated list. -/
def code_corroboration (firsts : List VSource) : ℚ :=
  ((firsts.map VSource.source_type).dedup.length : ℚ) / (SourceType.all.length : ℚ)

/-- The extraction_confidence local (validator.py line 28). -/
def code_extraction (claims : List VClaim) : ℚ :=
  (claims.map VClaim.confidence_score).sum / (claims.length : ℚ)

/-- The recency local (validator.py lines 30-43): the mean of the per-claim
recency scores, with a dead default for the empty case. -/
def code_recency (claims : List VClaim) : ℚ :=
  if claims.map claimRecency = [] then 1/2
  else (claims.map claimRecency).sum / ((claims.map claimRecency).length : ℚ)

/-- CrossValidator.calculate_confidence_score (validator.py lines 22-52).
For the empty input it returns 0.0 before touching any source. -/
def calculate_confidence_score (claims : List VClaim) : Option ℚ :=
  if claims = [] then some 0 else
  match firstSources claims with
  | none => none
  | some firsts =>
    some (qmin 1
      (code_sourceAuthority firsts * (2/5) +
       code_corroboration firsts * (3/10) +
       code_extraction claims * (1/5) +
       code_recency claims * (1/10)))

/-- Spec-side formula of claim C1, written from the specification's words
(spec.md section 4.3): sourceAuthority is the max authority over all sources
attached to the group, corroboration counts distinct source types over all
sources, recency is evaluated at the most recent claim's date only, and the
result is clamped to the unit interval. -/
def spec_sourceAuthority (claims : List VClaim) : ℚ :=
  ((claims.flatMap VClaim.sources).map (fun s => source_credibility s.source_type)).foldr qmax 0

def spec_corroboration (claims : List VClaim) : ℚ :=
  (((claims.flatMap VClaim.sources).map VSource.source_type).toFinset.card : ℚ) / 5

def spec_extraction_confidence (claims : List VClaim) : ℚ :=
  (claims.map VClaim.confidence_score).sum / (claims.length : ℚ)

def spec_recency (claims : List VClaim) : ℚ :=
  match (claims.filterMap VClaim.pub_days_old).min? with
  | some d => qmax (1/10) (1 - (d : ℚ)/365)
  | none => 1/2

def spec_confidence_score (claims : List VClaim) : ℚ :=
  qmin 1 (qmax 0
    ((2/5) * spec_sourceAuthority claims +
     (3/10) * spec_corroboration claims +
     (1/5) * spec_extraction_confidence claims +
     (1/10) * spec_recency claims))

/-- The first source type of a claim, as read by validator.py line 26-27. -/
def first_source_type (c : VClaim) : Option SourceType :=
  c.sources.head?.map VSource.source_type

/-- The first-source types represented in a group. -/
def groupFirstTypes (claims : List VClaim) : List SourceType :=
  claims.filterMap first_source_type

/-- Amended sourceAuthority: maximum credibility over each claim's first
source (validator.py considers only claim.sources[0]). -/
def am_sourceAuthority (claims : List VClaim) : ℚ :=
  ((groupFirstTypes claims).map source_credibility).foldr qmax 0

/-- Amended corroboration: distinct first-source types over the five known
source types. -/
def am_corroboration (claims : List VClaim) : ℚ :=
  (((groupFirstTypes claims).toFinset.card : ℚ)) / 5

/-- Amended recency: the mean of the per-claim recency scores. -/
def am_recency (claims : List VClaim) : ℚ :=
  (claims.map claimRecency).sum / (claims.length : ℚ)

/-- Amended confidence formula actually computed by the code on groups whose
claims all carry at least one source. -/
def am_confidence_score (claims : List VClaim) : ℚ :=
  qmin 1
    ((2/5) * am_sourceAuthority claims +
     (3/10) * am_corroboration claims +
     (1/5) * spec_extraction_confidence claims +
     (1/10) * am_recency claims)

/-- Python max(xs, key=f): the first element attaining the maximal key.
Replacement happens only on a strictly larger key. -/
def pyMaxBy {α : Type} (f : α → ℚ) : List α → Option α
  | [] => none
  | c :: cs => some (cs.foldl (fun b x => if f b < f x then x else b) c)

/-- Reference characterization of Python max: the first maximum of a list. -/
def firstMaxBy {α : Type} (f : α → ℚ) : List α → Option α
  | [] => none
  | c :: cs =>
    match firstMaxBy f cs with
    | some m => some (if f c < f m then m else c)
    | none => some c

/-- CrossValidator.detect_contradictions, restricted to one patent_count
FactKey group (validator.py lines 86-99): collect the set of count values of
dict-valued claims; if more than one distinct count exists, the primary claim
is Python max by confidence and the remaining claims (all claims not equal to
the primary, compared structurally as pydantic does) are the contradictory
ones. -/
def groupCountValues (claim_group : List VClaim) : List Int :=
  (claim_group.filterMap (fun c =>
    match c.value with
    | .dict d => d.count
    | .scalar _ => none)).dedup

def detect_contradiction_in_group (claim_group : List VClaim) :
    Option (VClaim × List VClaim) :=
  if claim_group.length < 2 then none
  else if 1 < (groupCountValues claim_group).length then
    match pyMaxBy VClaim.confidence_score claim_group with
    | some primary => some (primary, claim_group.filter (fun c => c ≠ primary))
    | none => none
  else none

/-- The singleton-group branch of CrossValidator.validate_claims
(validator.py lines 162-174): a single-source-group claim from a source of
credibility at least 0.9 is appended unchanged; otherwise its human_reviewed
flag is assigned False, an explanatory note is appended to dict values, and
the claim is still appended.  none models the IndexError on an empty sources
list. -/
def validate_single_group (claim : VClaim) : Option VClaim :=
  match claim.sources.head? with
  | none => none
  | some s =>
    if 9/10 ≤ source_credibility s.source_type then some claim
    else some { claim with
      human_reviewed := false,
      value := claim.value.addNote "Single source claim - requires human review" }

/-- A claim of the modular agent (src/modular_research_agent.py lines 40-48).
Values are compared through set(values), so they are modelled as strings with
decidable equality; sources are reduced to identifying strings. -/
structure MClaim where
  fact : String
  value : String
  sources : List String
  confidence : ℚ
  contradiction_note : Option String
  human_review_needed : Bool
deriving DecidableEq, Repr

/-- Stable insertion into a confidence-descending list: an element moves past
another only when the other's confidence is strictly larger, so claims of
equal confidence keep their input order.  This is the behaviour of
claims.sort(key=lambda x: x.confidence, reverse=True) in Python (Timsort is
stable). -/
def insertByConfDesc (c : MClaim) : List MClaim → List MClaim
  | [] => [c]
  | x :: xs =>
    if c.confidence < x.confidence then x :: insertByConfDesc c xs
    else c :: x :: xs

/-- The stable descending sort performed by CrossValidator._resolve_conflict
(src/modular_research_agent.py line 564). -/
def pySortByConfDesc (l : List MClaim) : List MClaim :=
  l.foldr insertByConfDesc []

/-- CrossValidator._resolve_conflict (src/modular_research_agent.py lines
562-582).  The list is sorted in place before everything else, so the value
scan and the source union run over the sorted order; best_claim is the head
of the sorted list; none models the IndexError claims[0] raises on an empty
input. -/
def resolve_conflict (claims : List MClaim) : Option MClaim :=
  match pySortByConfDesc claims with
  | [] => none
  | best :: rest =>
    let sorted := best :: rest
    let values := sorted.map MClaim.value
    if 1 < values.dedup.length then
      some { best with
        contradiction_note :=
          some ("Sources disagree: " ++ toString sorted.length ++ " different values found"),
        human_review_needed := true,
        sources := sorted.flatMap MClaim.sources }
    else some best

end MementoAI

namespace MementoAI

/-- Python str.lower, for the ASCII strings handled here. -/
def pyLower (s : String) : String :=
  String.map Char.toLower s

/-- Python str.strip: remove leading and trailing whitespace. -/
def pyStripList (l : List Char) : List Char :=
  ((l.dropWhile Char.isWhitespace).reverse.dropWhile Char.isWhitespace).reverse

def pyStrip (s : String) : String :=
  (pyStripList s.toList).asString

/-- The normalization both sides of ResolutionAgent._fuzzy_match receive
(src/services/resolution.py lines 214-215): lowercase then strip. -/
def pyNorm (s : String) : String :=
  pyStrip (pyLower s)

/-- The character overlap computed by _fuzzy_match (resolution.py line 226):
sum(1 for c in str1_lower if c in str2_lower) counts the characters of the
first string, with multiplicity, that occur anywhere in the second. -/
def char_overlap (a b : String) : Nat :=
  (a.toList.filter (fun ch => b.toList.contains ch)).length

/-- ResolutionAgent._fuzzy_match (resolution.py lines 197-229). -/
def fuzzy_match (str1 str2 : String) (threshold : ℚ) : Bool :=
  if str1.isEmpty || str2.isEmpty then false
  else
    let s1 := pyNorm str1
    let s2 := pyNorm str2
    if s1 = s2 then true
    else
      let maxLen : Nat := max s1.length s2.length
      if maxLen = 0 then false
      else threshold ≤ (char_overlap s1 s2 : ℚ) / (maxLen : ℚ)

/-- Spec-side similarity of claim C6: 1 on normalized equality, otherwise the
cardinality of the intersection of the two character sets divided by the
longer length. -/
def spec_similarity (a b : String) : ℚ :=
  if pyNorm a = pyNorm b then 1
  else
    (((pyNorm a).toList.toFinset ∩ (pyNorm b).toList.toFinset).card : ℚ) /
      (max (pyNorm a).length (pyNorm b).length : ℚ)

/-- Amended similarity: the number of characters of the first normalized
string, counted with multiplicity, that occur in the second normalized
string, divided by the longer length. -/
def am_similarity (a b : String) : ℚ :=
  if pyNorm a = pyNorm b then 1
  else
    (((pyNorm a).toList.countP (fun ch => (pyNorm b).toList.elem ch)) : ℚ) /
      (max (pyNorm a).length (pyNorm b).length : ℚ)

/-- The identifying fields extracted by
ResolutionAgent._extract_identifying_fields (resolution.py lines 186-195).
All five keys are always present in the returned dict; a key maps to None
when extracted_content lacks it. -/
structure IdFields where
  email : Option String
  name : Option String
  username : Option String
  phone : Option String
  location : Option String
deriving DecidableEq, Repr

/-- An extracted record (schemas/models.py ExtractedData) reduced to the
fields the resolution logic reads: its identifying content keys and its
confidence score. -/
structure ExtractedDataL where
  source_id : String
  source_type : String
  content : IdFields
  confidence_score : ℚ
deriving DecidableEq, Repr

/-- Python truthiness of an optional string: present and non-empty. -/
def truthyOpt : Option String → Bool
  | some s => !s.isEmpty
  | none => false

/-- The three key fields compared by _are_entities_same (resolution.py line
176). -/
def keyFieldGetters : List (IdFields → Option String) :=
  [IdFields.email, IdFields.name, IdFields.username]

/-- The loop of _are_entities_same (resolution.py lines 172-181): total_fields
is incremented whenever the key is present in both field dicts, which is
always, since _extract_identifying_fields materializes every key; matches are
incremented when both values are truthy and fuzzy-match at threshold 0.8. -/
def matchCounts (f1 f2 : IdFields) : Nat × Nat :=
  keyFieldGetters.foldl
    (fun acc get =>
      let matched :=
        truthyOpt (get f1) && truthyOpt (get f2) &&
          fuzzy_match ((get f1).getD "") ((get f2).getD "") (4/5)
      (if matched then acc.1 + 1 else acc.1, acc.2 + 1))
    (0, 0)

/-- ResolutionAgent._are_entities_same (resolution.py lines 157-184): at least
one fuzzy match, and the matched fraction at least one half.  The division is
evaluated only behind the short-circuit, but it is total here; the +1
conjunct records the guard order. -/
def are_entities_same (d1 d2 : ExtractedDataL) : Bool :=
  let mc := matchCounts d1.content d2.content
  decide (0 < mc.1) && decide ((1:ℚ)/2 ≤ (mc.1 : ℚ) / (mc.2 : ℚ))

/-- ResolutionAgent._group_entities (resolution.py lines 122-155): greedy
clustering; the first unprocessed record seeds a group, every later
unprocessed record matching the seed joins it.  Fuel-indexed structural
recursion; the fuel (list length) is always sufficient because every step
consumes the seed. -/
def groupEntitiesAux : Nat → List ExtractedDataL → List (List ExtractedDataL)
  | _, [] => []
  | 0, _ :: _ => []
  | fuel+1, d :: ds =>
    (d :: ds.filter (fun x => are_entities_same d x)) ::
      groupEntitiesAux fuel (ds.filter (fun x => !are_entities_same d x))

def group_entities (l : List ExtractedDataL) : List (List ExtractedDataL) :=
  groupEntitiesAux l.length l

/-- A processed candidate (schemas/models.py ProcessedCandidate) reduced to
the fields claim C9 is about; candidate_id and resolved_identity are built
from wall-clock timestamps and free-form dict merging and are not needed by
any property verified here. -/
structure ProcessedCandidateL where
  source_data : List ExtractedDataL
  confidence_score : ℚ
deriving DecidableEq, Repr

/-- ResolutionAgent._calculate_resolution_confidence (resolution.py lines
313-325). -/
def calculate_resolution_confidence (group : List ExtractedDataL) : ℚ :=
  if group = [] then 0
  else
    let source_count := group.length
    let avg_confidence :=
      (group.map ExtractedDataL.confidence_score).sum / (source_count : ℚ)
    let source_bonus := qmin (1/5) (((source_count : ℚ) - 1) * (1/10))
    qmin 1 (avg_confidence + source_bonus)

/-- ResolutionAgent.resolve_entities (resolution.py lines 77-120): one
processed candidate per entity group. -/
def resolve_entities (l : List ExtractedDataL) : List ProcessedCandidateL :=
  (group_entities l).map (fun g =>
    { source_data := g, confidence_score := calculate_resolution_confidence g })

/-- A record with no identifying fields at all (claim C9, spec Scenario D). -/
def hasNoIdentifyingFields (d : ExtractedDataL) : Bool :=
  !truthyOpt d.content.email && !truthyOpt d.content.name &&
    !truthyOpt d.content.username && !truthyOpt d.content.phone &&
    !truthyOpt d.content.location

/-- The resolved-identity inputs of _calculate_selectivity_score
(resolution.py lines 605-622): truthiness of the four required fields, and
the candidate_id key the contradiction filter compares against (absent from a
merged identity in practice, but modelled as the dict lookup the code
performs). -/
structure SIdentity where
  name_present : Bool
  email_present : Bool
  experience_present : Bool
  skills_present : Bool
  candidate_id : Option String
deriving DecidableEq, Repr

/-- A contradiction record reduced to the only field the selectivity score
reads. -/
structure SContradiction where
  candidate_id : String
deriving DecidableEq, Repr

/-- ResolutionAgent._calculate_selectivity_score (resolution.py lines
605-622). -/
def calculate_selectivity_score (identity : SIdentity)
    (contradictions : List SContradiction) : ℚ :=
  let complete_fields : Nat :=
    [identity.name_present, identity.email_present,
      identity.experience_present, identity.skills_present].countP (fun b => b)
  let completeness := ((complete_fields : ℚ) / 4) * (1/2)
  let candidate_contradictions :=
    contradictions.filter (fun c => identity.candidate_id = some c.candidate_id)
  let consistency : ℚ :=
    if candidate_contradictions.length ≠ 0 then
      1/2 - qmin (1/2) ((candidate_contradictions.length : ℚ) * (1/10))
    else 1/2
  qmin 1 (completeness + consistency)

/-- Spec-side selectivity of claim C5:
0.5 * (completeFields/requiredFields) + 0.5 * (1 - min(1, 0.1 * count)). -/
def spec_selectivity (identity : SIdentity)
    (contradictions : List SContradiction) : ℚ :=
  let complete_fields : Nat :=
    [identity.name_present, identity.email_present,
      identity.experience_present, identity.skills_present].countP (fun b => b)
  let cc :=
    (contradictions.filter (fun c => identity.candidate_id = some c.candidate_id)).length
  (1/2) * ((complete_fields : ℚ) / 4) + (1/2) * (1 - qmin 1 ((1/10) * (cc : ℚ)))

/-- Amended selectivity: the contradiction term loses 0.1 (not 0.05) per
recorded contradiction, hitting its floor of 0 at five contradictions, and
the total is clamped above by 1. -/
def am_selectivity (identity : SIdentity)
    (contradictions : List SContradiction) : ℚ :=
  let complete_fields : Nat :=
    [identity.name_present, identity.email_present,
      identity.experience_present, identity.skills_present].countP (fun b => b)
  let cc :=
    (contradictions.filter (fun c => identity.candidate_id = some c.candidate_id)).length
  qmin 1 ((1/2) * ((complete_fields : ℚ) / 4) + (1/2) * (1 - qmin 1 ((1/5) * (cc : ℚ))))

/-- The action tags emitted by _generate_candidate_action_plan; the dict
payloads are presentation data. -/
inductive PyAction where
  | crm_upsert
  | outreach_draft
  | evidence_packet
deriving DecidableEq, Repr

structure ActionPlanL where
  priority : String
  actions : List PyAction
  estimated_effort : String
  expected_outcome : String
deriving DecidableEq, Repr

/-- ResolutionAgent._generate_candidate_action_plan (resolution.py lines
658-727), as a function of the resolved identity's email (truthiness gate of
the crm_upsert block) and the overall score. -/
def generate_candidate_action_plan (email : Option String)
    (overall_score : ℚ) : ActionPlanL :=
  let priority :=
    if 4/5 ≤ overall_score then "high"
    else if 3/5 ≤ overall_score then "medium"
    else "low"
  let estimated_effort :=
    if 4/5 ≤ overall_score then "significant"
    else if 3/5 ≤ overall_score then "moderate"
    else "minimal"
  let expected_outcome :=
    if 4/5 ≤ overall_score then "exceptional"
    else if 3/5 ≤ overall_score then "good"
    else "standard"
  let actions :=
    (if truthyOpt email then [PyAction.crm_upsert] else []) ++
    (if 3/5 ≤ overall_score then [PyAction.outreach_draft] else []) ++
    (if 4/5 ≤ overall_score then [PyAction.evidence_packet] else [])
  { priority := priority, actions := actions,
    estimated_effort := estimated_effort, expected_outcome := expected_outcome }

end MementoAI

namespace MementoAI

/-- Python word characters for the \b boundary of the honorific regex. -/
def isWordChar (c : Char) : Bool :=
  c.isAlphanum || c = '_'

/-- The alternation of _normalize_fact_key's honorific regex
(src/modular_research_agent.py line 557), tried in source order, matched
case-sensitively. -/
def honorificPatterns : List (List Char) :=
  [['D','r','.'], ['P','r','o','f','.'], ['M','r','.'], ['M','s','.'], ['M','r','s','.']]

/-- Try each alternation branch at the head of the character list; return the
remainder after the first branch that matches. -/
def matchAlt : List (List Char) → List Char → Option (List Char)
  | [], _ => none
  | p :: ps, l => if l.take p.length = p then some (l.drop p.length) else matchAlt ps l

/-- Left-to-right scan of re.sub over the pattern
\b(Dr\.|Prof\.|Mr\.|Ms\.|Mrs\.)\s*: at a word boundary, a matching honorific
and the following whitespace are deleted and the scan resumes; the deleted
span ends in a non-word character, so the boundary state stays false.  Fuel
bounds the recursion; one unit per consumed character suffices. -/
def subHonAux : Nat → Bool → List Char → List Char
  | 0, _, l => l
  | _, _, [] => []
  | fuel+1, prevWord, c :: cs =>
    if prevWord then c :: subHonAux fuel (isWordChar c) cs
    else
      match matchAlt honorificPatterns (c :: cs) with
      | some rest => subHonAux fuel false (rest.dropWhile Char.isWhitespace)
      | none => c :: subHonAux fuel (isWordChar c) cs

def subHonorifics (l : List Char) : List Char :=
  subHonAux (l.length + 1) false l

/-- re.sub(r'\s+', ' ', l): collapse every whitespace run to one space. -/
def collapseWs : List Char → List Char
  | [] => []
  | [c] => if c.isWhitespace then [' '] else [c]
  | c :: d :: cs =>
    if c.isWhitespace && d.isWhitespace then collapseWs (d :: cs)
    else (if c.isWhitespace then ' ' else c) :: collapseWs (d :: cs)

/-- CrossValidator._normalize_fact_key (src/modular_research_agent.py lines
555-560): lowercase the fact, delete honorifics with a case-sensitive
pattern, collapse whitespace, strip. -/
def normalize_fact_key (fact : String) : String :=
  (pyStripList (collapseWs (subHonorifics (fact.toList.map Char.toLower)))).asString

/-- The alternation of BaseExtractor.normalize_name
(src/src/extractor/base_extractor.py line 29):
\b(?:Dr\.?|Prof\.?|Mr\.?|Ms\.?|Mrs\.?)\s+ — an optional dot (preferred when
present) and at least one whitespace character, all consumed. -/
def matchNameHonOne (base : List Char) (l : List Char) : Option (List Char) :=
  if l.take base.length = base then
    let r := l.drop base.length
    match r with
    | '.' :: t =>
      match t with
      | w :: _ => if w.isWhitespace then some (t.dropWhile Char.isWhitespace) else none
      | [] => none
    | w :: _ =>
      if w.isWhitespace then some (r.dropWhile Char.isWhitespace) else none
    | [] => none
  else none

def nameHonBases : List (List Char) :=
  [['D','r'], ['P','r','o','f'], ['M','r'], ['M','s'], ['M','r','s']]

def matchNameAlt : List (List Char) → List Char → Option (List Char)
  | [], _ => none
  | p :: ps, l =>
    match matchNameHonOne p l with
    | some rest => some rest
    | none => matchNameAlt ps l

def subNameHonAux : Nat → Bool → List Char → List Char
  | 0, _, l => l
  | _, _, [] => []
  | fuel+1, prevWord, c :: cs =>
    if prevWord then c :: subNameHonAux fuel (isWordChar c) cs
    else
      match matchNameAlt nameHonBases (c :: cs) with
      | some rest => subNameHonAux fuel false rest
      | none => c :: subNameHonAux fuel (isWordChar c) cs

/-- BaseExtractor.normalize_name (base_extractor.py lines 28-31): strip
honorifics from the original-case name, collapse whitespace, strip; the name
is never lowercased. -/
def normalize_name (name : String) : String :=
  (pyStripList (collapseWs (subNameHonAux (name.toList.length + 1) false name.toList))).asString

end MementoAI

namespace MementoAI

/-! Concrete input vectors used by the counterexample and witness theorems. -/

def claimIbmRecent : VClaim :=
  { value := .scalar "", confidence_score := 4/5, sources := [⟨.ibm⟩],
    supporting_snippets := [], pub_days_old := some 0, human_reviewed := false }

def claimUsptoOld : VClaim :=
  { value := .scalar "", confidence_score := 4/5, sources := [⟨.uspto⟩],
    supporting_snippets := [], pub_days_old := some 730, human_reviewed := false }

def claimNatureTop : VClaim :=
  { value := .scalar "", confidence_score := 1, sources := [⟨.nature⟩],
    supporting_snippets := [], pub_days_old := some 0, human_reviewed := false }

def claimArxivWeak : VClaim :=
  { value := .scalar "", confidence_score := 0, sources := [⟨.arxiv⟩],
    supporting_snippets := [], pub_days_old := some 10000, human_reviewed := false }

def claimTieOneSource : VClaim :=
  { value := .dict ⟨some "jane doe", some 52, none, none, none, none, []⟩,
    confidence_score := 1/2, sources := [⟨.ibm⟩],
    supporting_snippets := [], pub_days_old := none, human_reviewed := false }

def claimTieTwoSources : VClaim :=
  { value := .dict ⟨some "jane doe", some 48, none, none, none, none, []⟩,
    confidence_score := 1/2, sources := [⟨.ibm⟩, ⟨.uspto⟩],
    supporting_snippets := [], pub_days_old := none, human_reviewed := false }

def claimHighConf : VClaim :=
  { value := .dict ⟨some "jane doe", some 52, none, none, none, none, []⟩,
    confidence_score := 9/10, sources := [⟨.ibm⟩],
    supporting_snippets := [], pub_days_old := none, human_reviewed := false }

def claimLowConf : VClaim :=
  { value := .dict ⟨some "jane doe", some 48, none, none, none, none, []⟩,
    confidence_score := 7/10, sources := [⟨.uspto⟩],
    supporting_snippets := [], pub_days_old := none, human_reviewed := false }

def claimSingleArxiv : VClaim :=
  { value := .dict ⟨some "jane doe", some 3, none, none, none, none, []⟩,
    confidence_score := 3/5, sources := [⟨.arxiv⟩],
    supporting_snippets := [], pub_days_old := none, human_reviewed := true }

def claimSingleIbm : VClaim :=
  { value := .dict ⟨some "jane doe", some 3, none, none, none, none, []⟩,
    confidence_score := 3/5, sources := [⟨.ibm⟩],
    supporting_snippets := [], pub_days_old := none, human_reviewed := false }

def identityComplete : SIdentity :=
  { name_present := true, email_present := true, experience_present := true,
    skills_present := true, candidate_id := some "c1" }

def recordNoFields : ExtractedDataL :=
  { source_id := "s0", source_type := "github",
    content := ⟨none, none, none, none, none⟩, confidence_score := 7/10 }

def recordWithEmail : ExtractedDataL :=
  { source_id := "s1", source_type := "arxiv",
    content := ⟨some "jane@lab.org", some "Jane Doe", none, none, none⟩,
    confidence_score := 9/10 }

end MementoAI

namespace MementoAI

/-- C10: on the empty claim list, calculate_confidence_score returns exactly
0.0 (validator.py lines 23-24) instead of raising or dividing by zero. -/
theorem confidence_score_empty_input :
    calculate_confidence_score [] = some 0 := by
  rfl

/-- qmin is the lattice min on the rationals. -/
theorem qmin_eq_min (a b : ℚ) : qmin a b = min a b :=
  (min_def a b).symm

/-- qmax is the lattice max on the rationals. -/
theorem qmax_eq_max (a b : ℚ) : qmax a b = max a b :=
  (max_def a b).symm

theorem source_credibility_nonneg (t : SourceType) : 0 ≤ source_credibility t := by
  cases t <;> norm_num [source_credibility]

theorem foldr_qmax_nonneg (l : List ℚ) : 0 ≤ l.foldr qmax 0 := by
  induction l with
  | nil => exact le_refl 0
  | cons x xs ih =>
    show 0 ≤ qmax x (xs.foldr qmax 0)
    rw [qmax_eq_max]
    exact le_max_of_le_right ih

theorem foldl_qmax_eq_foldr (l : List ℚ) (x : ℚ) (hx : 0 ≤ x) :
    l.foldl qmax x = qmax x (l.foldr qmax 0) := by
  induction l generalizing x with
  | nil =>
    show x = qmax x 0
    rw [qmax_eq_max, max_eq_left hx]
  | cons y ys ih =>
    have hxy : 0 ≤ qmax x y := by
      rw [qmax_eq_max]
      exact le_max_of_le_left hx
    calc (y :: ys).foldl qmax x = ys.foldl qmax (qmax x y) := rfl
    _ = qmax (qmax x y) (ys.foldr qmax 0) := ih (qmax x y) hxy
    _ = qmax x (qmax y (ys.foldr qmax 0)) := by
        rw [qmax_eq_max, qmax_eq_max, qmax_eq_max, qmax_eq_max, max_assoc]
    _ = qmax x ((y :: ys).foldr qmax 0) := rfl

theorem foldr_qmax_le_append (l l2 : List ℚ) :
    l.foldr qmax 0 ≤ (l ++ l2).foldr qmax 0 := by
  induction l with
  | nil => simpa using foldr_qmax_nonneg l2
  | cons x xs ih =>
    show qmax x (xs.foldr qmax 0) ≤ qmax x ((xs ++ l2).foldr qmax 0)
    rw [qmax_eq_max, qmax_eq_max]
    exact max_le_max le_rfl ih

theorem mean_le_mean_concat (l : List ℚ) (v : ℚ) (hne : l ≠ [])
    (hv : l.sum / (l.length : ℚ) ≤ v) :
    l.sum / (l.length : ℚ) ≤ (l.sum + v) / ((l.length : ℚ) + 1) := by
  have hn : 0 < (l.length : ℚ) := by
    exact_mod_cast List.length_pos.mpr hne
  rw [div_le_div_iff₀ hn (by linarith)]
  have hs : l.sum ≤ v * (l.length : ℚ) := (div_le_iff₀ hn).mp hv
  ring_nf
  nlinarith [hs]

theorem firstSources_spec (l : List VClaim) (h : ∀ c ∈ l, c.sources ≠ []) :
    ∃ fs, firstSources l = some fs ∧ fs.map VSource.source_type = groupFirstTypes l := by
  induction l with
  | nil => exact ⟨[], rfl, rfl⟩
  | cons c cs ih =>
    obtain ⟨fs, hfs, hmap⟩ := ih (fun x hx => h x (List.mem_cons_of_mem _ hx))
    obtain ⟨s, hs⟩ : ∃ s, c.sources.head? = some s := by
      cases hcs : c.sources with
      | nil => exact absurd hcs (h c (List.mem_cons_self _ _))
      | cons a as => exact ⟨a, rfl⟩
    refine ⟨s :: fs, ?_, ?_⟩
    · show (match c.sources.head?, firstSources cs with
        | some s, some ss => some (s :: ss)
        | _, _ => none) = some (s :: fs)
      rw [hs, hfs]
    · show (s :: fs).map VSource.source_type = (c :: cs).filterMap first_source_type
      rw [List.filterMap_cons]
      have : first_source_type c = some s.source_type := by
        rw [first_source_type, hs]
        rfl
      rw [this, List.map_cons, hmap]
      rfl

theorem code_sourceAuthority_eq (claims : List VClaim) (fs : List VSource)
    (hmap : fs.map VSource.source_type = groupFirstTypes claims) :
    code_sourceAuthority fs = am_sourceAuthority claims := by
  have hcred : fs.map (fun s => source_credibility s.source_type) =
      (groupFirstTypes claims).map source_credibility := by
    rw [← hmap, List.map_map]
    rfl
  rw [code_sourceAuthority, am_sourceAuthority, hcred]
  cases hL : (groupFirstTypes claims).map source_credibility with
  | nil => rfl
  | cons x xs =>
    have hx : 0 ≤ x := by
      have hxmem : x ∈ (groupFirstTypes claims).map source_credibility := by
        rw [hL]
        exact List.mem_cons_self x xs
      obtain ⟨t, _, ht⟩ := List.mem_map.mp hxmem
      rw [← ht]
      exact source_credibility_nonneg t
    show xs.foldl qmax x = (x :: xs).foldr qmax 0
    rw [foldl_qmax_eq_foldr xs x hx]
    rfl

theorem code_corroboration_eq (claims : List VClaim) (fs : List VSource)
    (hmap : fs.map VSource.source_type = groupFirstTypes claims) :
    code_corroboration fs = am_corroboration claims := by
  rw [code_corroboration, am_corroboration, hmap, List.card_toFinset]
  norm_num [SourceType.all]

theorem code_recency_eq (claims : List VClaim) (h0 : claims ≠ []) :
    code_recency claims = am_recency claims := by
  rw [code_recency, am_recency, if_neg (by simpa using h0), List.length_map]

/-- The confidence score the validator computes on a well-formed group: the
amended formula of claim C1. -/
theorem confidence_code_eq (claims : List VClaim) (h0 : claims ≠ [])
    (h1 : ∀ c ∈ claims, c.sources ≠ []) :
    calculate_confidence_score claims = some (am_confidence_score claims) := by
  obtain ⟨fs, hfs, hmap⟩ := firstSources_spec claims h1
  rw [calculate_confidence_score, if_neg h0, hfs]
  show some (qmin 1
      (code_sourceAuthority fs * (2/5) +
       code_corroboration fs * (3/10) +
       code_extraction claims * (1/5) +
       code_recency claims * (1/10))) = some (am_confidence_score claims)
  rw [code_sourceAuthority_eq claims fs hmap, code_corroboration_eq claims fs hmap,
    code_recency_eq claims h0]
  rw [am_confidence_score]
  congr 1
  rw [spec_extraction_confidence, code_extraction]
  ring_nf

/-- C1: counterexample.  On a group of two single-source claims with
different publication dates, the code's confidence (recency averaged over all
claims of the group) differs from the claimed formula (recency of the most
recent claim's date only): 0.695 versus 0.74. -/
theorem confidence_recency_cex :
    calculate_confidence_score [claimIbmRecent, claimUsptoOld] = some (139/200) ∧
    spec_confidence_score [claimIbmRecent, claimUsptoOld] = 37/50 ∧
    (139/200 : ℚ) ≠ 37/50 := by
  refine ⟨?_, ?_, ?_⟩ <;> with_unfolding_all decide

/-- C1 (amended): for every non-empty FactKey group whose claims all carry at
least one source, the Confidence Scorer returns
min(1, 0.4*sourceAuthority + 0.3*corroboration + 0.2*extractionConfidence + 0.1*recency)
where sourceAuthority is the maximum authority over each claim's first
source, corroboration is the number of distinct first-source types divided by
the five known source types, extractionConfidence is the mean of per-claim
confidences, and recency is the mean over the claims of
max(0.1, 1 - daysSinceDate/365) (0.5 for a claim without a date). -/
theorem confidence_score_formula (claims : List VClaim) (h0 : claims ≠ [])
    (h1 : ∀ c ∈ claims, c.sources ≠ []) :
    calculate_confidence_score claims = some (qmin 1
      ((2/5) * am_sourceAuthority claims +
       (3/10) * am_corroboration claims +
       (1/5) * spec_extraction_confidence claims +
       (1/10) * am_recency claims)) :=
  confidence_code_eq claims h0 h1

/-- Witness for confidence_score_formula at a concrete two-claim group. -/
theorem confidence_score_formula_w :
    calculate_confidence_score [claimIbmRecent, claimUsptoOld] = some (qmin 1
      ((2/5) * am_sourceAuthority [claimIbmRecent, claimUsptoOld] +
       (3/10) * am_corroboration [claimIbmRecent, claimUsptoOld] +
       (1/5) * spec_extraction_confidence [claimIbmRecent, claimUsptoOld] +
       (1/10) * am_recency [claimIbmRecent, claimUsptoOld])) :=
  confidence_score_formula [claimIbmRecent, claimUsptoOld]
    (by with_unfolding_all decide) (by with_unfolding_all decide)

/-- Mean of a mapped list does not decrease when an element at least as large
as the mean is appended. -/
theorem mean_map_concat (l : List VClaim) (c : VClaim) (f : VClaim → ℚ)
    (h0 : l ≠ []) (hv : (l.map f).sum / (l.length : ℚ) ≤ f c) :
    (l.map f).sum / (l.length : ℚ) ≤
      ((l ++ [c]).map f).sum / (((l ++ [c]).length : ℕ) : ℚ) := by
  have hlm : l.map f ≠ [] := by simpa using h0
  have h := mean_le_mean_concat (l.map f) (f c) hlm
    (by rw [List.length_map]; exact hv)
  rw [List.length_map] at h
  simp only [List.map_append, List.sum_append, List.map_cons, List.map_nil,
    List.sum_cons, List.sum_nil, add_zero, List.length_append,
    List.length_cons, List.length_nil]
  push_cast
  exact h

set_option maxRecDepth 8192 in
/-- C3: counterexample.  Appending a corroborating claim with a fresh source
type but low extraction confidence and an old date strictly decreases the
group's confidence: 0.752 drops to 0.667. -/
theorem confidence_monotonicity_cex :
    (∀ t, first_source_type claimArxivWeak = some t →
      t ∉ groupFirstTypes [claimNatureTop]) ∧
    calculate_confidence_score [claimNatureTop] = some (94/125) ∧
    calculate_confidence_score [claimNatureTop, claimArxivWeak] = some (667/1000) ∧
    ((667 : ℚ)/1000 < 94/125) := by
  refine ⟨?_, ?_, ?_, ?_⟩ <;> with_unfolding_all decide

set_option linter.unusedVariables false in
/-- C3 (amended): adding a corroborating claim from a new, distinct
sourceType never decreases the group's confidence, provided the added claim's
extraction confidence is at least the group's mean confidence and its recency
score is at least the group's mean recency (without those two conditions the
added claim can drag the averaged terms down). -/
theorem confidence_monotonic_corroboration (claims : List VClaim) (c : VClaim)
    (h0 : claims ≠ []) (h1 : ∀ x ∈ claims, x.sources ≠ []) (hc : c.sources ≠ [])
    (hnew : ∀ t, first_source_type c = some t → t ∉ groupFirstTypes claims)
    (hconf : spec_extraction_confidence claims ≤ c.confidence_score)
    (hrec : am_recency claims ≤ claimRecency c) :
    ∀ q q2, calculate_confidence_score claims = some q →
      calculate_confidence_score (claims ++ [c]) = some q2 → q ≤ q2 := by
  intro q q2 hq hq2
  rw [confidence_code_eq claims h0 h1] at hq
  have h0x : claims ++ [c] ≠ [] := by simp
  have h1x : ∀ x ∈ claims ++ [c], x.sources ≠ [] := by
    intro x hx
    rcases List.mem_append.mp hx with h | h
    · exact h1 x h
    · have : x = c := List.mem_singleton.mp h
      rw [this]
      exact hc
  rw [confidence_code_eq _ h0x h1x] at hq2
  have hq' : q = am_confidence_score claims := (Option.some.inj hq).symm
  have hq2' : q2 = am_confidence_score (claims ++ [c]) := (Option.some.inj hq2).symm
  rw [hq', hq2']
  have hsa : am_sourceAuthority claims ≤ am_sourceAuthority (claims ++ [c]) := by
    simp only [am_sourceAuthority, groupFirstTypes, List.filterMap_append,
      List.map_append]
    exact foldr_qmax_le_append _ _
  have hcorr : am_corroboration claims ≤ am_corroboration (claims ++ [c]) := by
    simp only [am_corroboration, groupFirstTypes, List.filterMap_append]
    have hsub : (List.filterMap first_source_type claims).toFinset ⊆
        (List.filterMap first_source_type claims ++
          List.filterMap first_source_type [c]).toFinset := by
      rw [List.toFinset_append]
      exact Finset.subset_union_left
    have hcard : (((List.filterMap first_source_type claims).toFinset.card : ℕ) : ℚ) ≤
        (((List.filterMap first_source_type claims ++
          List.filterMap first_source_type [c]).toFinset.card : ℕ) : ℚ) := by
      exact_mod_cast Finset.card_le_card hsub
    linarith [hcard]
  have hext : spec_extraction_confidence claims ≤
      spec_extraction_confidence (claims ++ [c]) := by
    rw [spec_extraction_confidence, spec_extraction_confidence]
    exact mean_map_concat claims c VClaim.confidence_score h0 hconf
  have hrec2 : am_recency claims ≤ am_recency (claims ++ [c]) := by
    rw [am_recency, am_recency]
    exact mean_map_concat claims c claimRecency h0 hrec
  rw [am_confidence_score, am_confidence_score, qmin_eq_min, qmin_eq_min]
  exact min_le_min le_rfl (by linarith)

/-- Witness for confidence_monotonic_corroboration: adding a fresh
high-confidence recent Nature claim to an IBM group raises the score. -/
theorem confidence_monotonic_corroboration_w :
    calculate_confidence_score [claimIbmRecent] = some (17/25) ∧
    calculate_confidence_score [claimIbmRecent, claimNatureTop] = some (99/125) ∧
    ((17 : ℚ)/25 ≤ 99/125) :=
  ⟨by with_unfolding_all decide, by with_unfolding_all decide,
    confidence_monotonic_corroboration [claimIbmRecent] claimNatureTop
      (by with_unfolding_all decide) (by with_unfolding_all decide)
      (by with_unfolding_all decide) (by with_unfolding_all decide)
      (by with_unfolding_all decide) (by with_unfolding_all decide)
      (17/25) (99/125)
      (by with_unfolding_all decide) (by with_unfolding_all decide)⟩

theorem firstMaxBy_isSome {α : Type} (f : α → ℚ) (a : α) (l : List α) :
    ∃ m, firstMaxBy f (a :: l) = some m := by
  cases h : firstMaxBy f l with
  | none => exact ⟨a, by simp [firstMaxBy, h]⟩
  | some m => exact ⟨if f a < f m then m else a, by simp [firstMaxBy, h]⟩

theorem firstMaxBy_cons_of_tail {α : Type} (f : α → ℚ) (c : α) (cs : List α)
    (b : α) (hb : firstMaxBy f cs = some b) :
    firstMaxBy f (c :: cs) = some (if f c < f b then b else c) := by
  simp [firstMaxBy, hb]

theorem firstMaxBy_cons_cons {α : Type} (f : α → ℚ) (c x : α) (cs : List α) :
    firstMaxBy f (c :: x :: cs) =
      firstMaxBy f ((if f c < f x then x else c) :: cs) := by
  cases cs with
  | nil =>
    by_cases h : f c < f x <;> simp [firstMaxBy, h]
  | cons y ys =>
    obtain ⟨m, hm⟩ := firstMaxBy_isSome f y ys
    have hx2 : firstMaxBy f (x :: y :: ys) = some (if f x < f m then m else x) :=
      firstMaxBy_cons_of_tail f x (y :: ys) m hm
    rw [firstMaxBy_cons_of_tail f c (x :: y :: ys) (if f x < f m then m else x) hx2,
      firstMaxBy_cons_of_tail f (if f c < f x then x else c) (y :: ys) m hm]
    by_cases h1 : f c < f x
    · by_cases h2 : f x < f m
      · simp [h1, h2, lt_trans h1 h2]
      · simp [h1, h2]
    · by_cases h2 : f x < f m
      · simp [h1, h2]
      · have h3 : ¬ f c < f m := fun hc =>
          h2 (lt_of_le_of_lt (not_lt.mp h1) hc)
        simp [h1, h2, h3]

theorem pyMaxBy_eq_firstMaxBy {α : Type} (f : α → ℚ) (l : List α) :
    pyMaxBy f l = firstMaxBy f l := by
  cases l with
  | nil => rfl
  | cons c cs =>
    induction cs generalizing c with
    | nil => simp [pyMaxBy, firstMaxBy]
    | cons x cs ih =>
      calc pyMaxBy f (c :: x :: cs) =
          pyMaxBy f ((if f c < f x then x else c) :: cs) := rfl
      _ = firstMaxBy f ((if f c < f x then x else c) :: cs) := ih _
      _ = firstMaxBy f (c :: x :: cs) := (firstMaxBy_cons_cons f c x cs).symm

theorem firstMaxBy_decomp {α : Type} (f : α → ℚ) :
    ∀ (l : List α) (p : α), firstMaxBy f l = some p →
      ∃ l1 l2, l = l1 ++ p :: l2 ∧ (∀ x ∈ l1, f x < f p) ∧ (∀ x ∈ l2, f x ≤ f p) := by
  intro l
  induction l with
  | nil =>
    intro p h
    exact absurd h (by simp [firstMaxBy])
  | cons c cs ih =>
    intro p h
    cases cs with
    | nil =>
      have hp : c = p := by simpa [firstMaxBy] using h
      cases hp
      exact ⟨[], [], rfl, fun x hx => absurd hx (List.not_mem_nil x),
        fun x hx => absurd hx (List.not_mem_nil x)⟩
    | cons y ys =>
      obtain ⟨m, hm⟩ := firstMaxBy_isSome f y ys
      have hp : (if f c < f m then m else c) = p := by
        have h2 := h
        rw [firstMaxBy_cons_of_tail f c (y :: ys) m hm] at h2
        exact Option.some.inj h2
      obtain ⟨l1, l2, hsplit, hlt, hle⟩ := ih m hm
      have hall : ∀ x ∈ y :: ys, f x ≤ f m := by
        intro x hx
        rw [hsplit] at hx
        rcases List.mem_append.mp hx with hx | hx
        · exact le_of_lt (hlt x hx)
        · rcases List.mem_cons.mp hx with hx | hx
          · rw [hx]
          · exact hle x hx
      cases hp
      by_cases hcm : f c < f m
      · rw [if_pos hcm]
        refine ⟨c :: l1, l2, ?_, ?_, ?_⟩
        · rw [hsplit]
          rfl
        · intro x hx
          rcases List.mem_cons.mp hx with hx | hx
          · rw [hx]
            exact hcm
          · exact hlt x hx
        · exact hle
      · rw [if_neg hcm]
        refine ⟨[], y :: ys, rfl, fun x hx => absurd hx (List.not_mem_nil x), ?_⟩
        intro x hx
        exact le_trans (hall x hx) (not_lt.mp hcm)

theorem insertByConfDesc_ne_nil (c : MClaim) (l : List MClaim) :
    insertByConfDesc c l ≠ [] := by
  cases l with
  | nil => exact List.cons_ne_nil c []
  | cons x xs =>
    rw [insertByConfDesc]
    by_cases h : c.confidence < x.confidence
    · rw [if_pos h]
      exact List.cons_ne_nil x _
    · rw [if_neg h]
      exact List.cons_ne_nil c _

theorem pySort_head_eq_firstMax (g : List MClaim) :
    (pySortByConfDesc g).head? = firstMaxBy MClaim.confidence g := by
  induction g with
  | nil => rfl
  | cons c cs ih =>
    have hstep : pySortByConfDesc (c :: cs) = insertByConfDesc c (pySortByConfDesc cs) := rfl
    cases hs : pySortByConfDesc cs with
    | nil =>
      have hcs : cs = [] := by
        cases cs with
        | nil => rfl
        | cons y ys => exact absurd hs (insertByConfDesc_ne_nil y (pySortByConfDesc ys))
      rw [hcs]
      simp [pySortByConfDesc, insertByConfDesc, firstMaxBy]
    | cons b bs =>
      have hb : firstMaxBy MClaim.confidence cs = some b := by
        rw [← ih, hs]
        rfl
      rw [hstep, hs, firstMaxBy_cons_of_tail MClaim.confidence c cs b hb,
        insertByConfDesc]
      by_cases h : c.confidence < b.confidence
      · rw [if_pos h, if_pos h]
        cases hrec : insertByConfDesc c bs with
        | nil => exact absurd hrec (insertByConfDesc_ne_nil c bs)
        | cons z zs => rfl
      · rw [if_neg h, if_neg h]
        rfl

/-- C2: counterexample.  In a FactKey group of two disagreeing claims with
equal confidence, the code elects the first claim in input order as primary
even though the second carries strictly more sources, so ties are not broken
by larger source count. -/
theorem primary_tiebreak_cex :
    detect_contradiction_in_group [claimTieOneSource, claimTieTwoSources] =
      some (claimTieOneSource, [claimTieTwoSources]) ∧
    claimTieOneSource.confidence_score = claimTieTwoSources.confidence_score ∧
    claimTieOneSource.sources.length < claimTieTwoSources.sources.length ∧
    claimTieOneSource ≠ claimTieTwoSources := by
  refine ⟨?_, ?_, ?_, ?_⟩ <;> with_unfolding_all decide

/-- C2 (amended): the claim elected as primary is the first claim attaining
the maximal confidence in input order — claims strictly before it have
strictly smaller confidence, claims after it have no larger confidence — with
no further tie-break; the stable descending sort of _resolve_conflict picks
the same element, and for two disagreeing claims A (conf 0.9) and B
(conf 0.7), A is selected for both input orders. -/
theorem primary_selection_rule :
    (∀ (g : List VClaim) (pr : VClaim) (cl : List VClaim),
        detect_contradiction_in_group g = some (pr, cl) →
        pyMaxBy VClaim.confidence_score g = some pr ∧
          cl = g.filter (fun c => c ≠ pr)) ∧
    (∀ (g : List VClaim) (p : VClaim), pyMaxBy VClaim.confidence_score g = some p →
        ∃ l1 l2, g = l1 ++ p :: l2 ∧
          (∀ x ∈ l1, x.confidence_score < p.confidence_score) ∧
          (∀ x ∈ l2, x.confidence_score ≤ p.confidence_score)) ∧
    (∀ g : List MClaim, (pySortByConfDesc g).head? = pyMaxBy MClaim.confidence g) ∧
    (∀ A B : VClaim, B.confidence_score < A.confidence_score →
        pyMaxBy VClaim.confidence_score [A, B] = some A ∧
        pyMaxBy VClaim.confidence_score [B, A] = some A) := by
  refine ⟨?_, ?_, ?_, ?_⟩
  · intro g pr cl h
    rw [detect_contradiction_in_group] at h
    split_ifs at h
    cases hmax : pyMaxBy VClaim.confidence_score g with
    | none =>
      rw [hmax] at h
      exact absurd h (by simp)
    | some primary =>
      rw [hmax] at h
      have hpair := Option.some.inj h
      have h1 : primary = pr := congrArg Prod.fst hpair
      have h2 : g.filter (fun c => c ≠ primary) = cl := congrArg Prod.snd hpair
      rw [h1] at h2
      exact ⟨by rw [h1], h2.symm⟩
  · intro g p h
    rw [pyMaxBy_eq_firstMaxBy] at h
    exact firstMaxBy_decomp VClaim.confidence_score g p h
  · intro g
    rw [pySort_head_eq_firstMax, pyMaxBy_eq_firstMaxBy]
  · intro A B h
    constructor
    · show some (if A.confidence_score < B.confidence_score then B else A) = some A
      rw [if_neg (not_lt.mpr (le_of_lt h))]
    · show some (if B.confidence_score < A.confidence_score then A else B) = some A
      rw [if_pos h]

/-- Witness for primary_selection_rule: the 0.9-confidence claim beats the
0.7-confidence claim in both input orders. -/
theorem primary_selection_rule_w :
    pyMaxBy VClaim.confidence_score [claimHighConf, claimLowConf] = some claimHighConf ∧
    pyMaxBy VClaim.confidence_score [claimLowConf, claimHighConf] = some claimHighConf :=
  primary_selection_rule.2.2.2 claimHighConf claimLowConf (by with_unfolding_all decide)

/-- C4: counterexample.  A singleton FactKey group whose only source has
authority 0.8 is kept, but the code assigns False, not True, to the
human-review flag (human_reviewed), even when the flag was True before. -/
theorem single_source_flag_cex :
    source_credibility SourceType.arxiv < 9/10 ∧
    claimSingleArxiv.human_reviewed = true ∧
    (validate_single_group claimSingleArxiv).map VClaim.human_reviewed = some false := by
  refine ⟨?_, ?_, ?_⟩ <;> with_unfolding_all decide

/-- C4 (amended): a singleton group whose source authority is at least 0.9 is
accepted unchanged; below that bar the claim is still kept, its
human_reviewed flag is assigned False (marking it as not yet reviewed), and
the explanatory note is appended to its value when the value is a dict. -/
theorem single_source_validation (claim : VClaim) (s : VSource)
    (hs : claim.sources.head? = some s) :
    (9/10 ≤ source_credibility s.source_type →
      validate_single_group claim = some claim) ∧
    (source_credibility s.source_type < 9/10 →
      ∃ kept, validate_single_group claim = some kept ∧
        kept.human_reviewed = false ∧
        kept.value = claim.value.addNote "Single source claim - requires human review" ∧
        kept.confidence_score = claim.confidence_score ∧
        kept.sources = claim.sources ∧
        kept.supporting_snippets = claim.supporting_snippets) := by
  constructor
  · intro h
    rw [validate_single_group, hs]
    exact if_pos h
  · intro h
    rw [validate_single_group, hs]
    refine ⟨{ claim with
        human_reviewed := false,
        value := claim.value.addNote "Single source claim - requires human review" },
      ?_, rfl, rfl, rfl, rfl, rfl⟩
    exact if_neg (not_le.mpr h)

/-- Witness for single_source_validation: an IBM-source (0.9) singleton claim
is accepted unchanged. -/
theorem single_source_validation_w :
    validate_single_group claimSingleIbm = some claimSingleIbm :=
  (single_source_validation claimSingleIbm ⟨SourceType.ibm⟩
    (by with_unfolding_all rfl)).1 (by norm_num [source_credibility])

/-- C5: counterexample.  With all four required fields complete and one
contradiction recorded for the candidate, the code returns 0.9 while the
claimed formula gives 0.95: each contradiction costs 0.1, not 0.05. -/
theorem selectivity_formula_cex :
    calculate_selectivity_score identityComplete [⟨"c1"⟩] = 9/10 ∧
    spec_selectivity identityComplete [⟨"c1"⟩] = 19/20 ∧
    ((9 : ℚ)/10 ≠ 19/20) := by
  refine ⟨?_, ?_, ?_⟩ <;> with_unfolding_all decide

/-- C5 (amended): selectivity equals
min(1, 0.5*(completeFields/4) + 0.5*(1 - min(1, 0.2*contradictionCount))),
so each contradiction recorded for the candidate reduces the score by 0.1
until the consistency term bottoms out at five contradictions. -/
theorem selectivity_formula (identity : SIdentity)
    (contradictions : List SContradiction) :
    calculate_selectivity_score identity contradictions =
      am_selectivity identity contradictions := by
  simp only [calculate_selectivity_score, am_selectivity]
  congr 1
  by_cases h0 :
      (contradictions.filter
        (fun c => identity.candidate_id = some c.candidate_id)).length = 0
  · rw [h0]
    simp only [ne_eq, not_true_eq_false, if_false]
    rw [show ((0 : ℕ) : ℚ) = 0 from rfl, qmin_eq_min]
    norm_num
    ring
  · rw [if_pos h0]
    set n := (contradictions.filter
      (fun c => identity.candidate_id = some c.candidate_id)).length with hn
    have hn1 : (1 : ℚ) ≤ (n : ℚ) := by
      have : 1 ≤ n := Nat.one_le_iff_ne_zero.mpr h0
      exact_mod_cast this
    rw [qmin_eq_min, qmin_eq_min]
    rcases le_or_lt ((n : ℚ) * (1/10)) (1/2) with hle | hlt
    · rw [min_eq_right hle, min_eq_right (by linarith : (1/5) * (n : ℚ) ≤ 1)]
      ring
    · rw [min_eq_left (le_of_lt hlt), min_eq_left (by linarith : (1 : ℚ) ≤ (1/5) * (n : ℚ))]
      ring

/-- C6: counterexample.  The code counts the characters of the first string
with multiplicity, so "aa" vs "ab" scores 2/2 = 1 and matches, while the
claimed set-intersection formula gives 1/2 and must not match at threshold
0.8; swapping the arguments gives 1/2 and no match, so the similarity is not
symmetric either. -/
theorem fuzzy_overlap_cex :
    fuzzy_match "aa" "ab" (4/5) = true ∧
    spec_similarity "aa" "ab" = 1/2 ∧
    ¬ ((4 : ℚ)/5 ≤ 1/2) ∧
    fuzzy_match "ab" "aa" (4/5) = false := by
  refine ⟨?_, ?_, ?_, ?_⟩ <;> with_unfolding_all decide

/-- C6 (amended): fuzzy matching at threshold 0.8 succeeds exactly on
non-empty inputs whose multiplicity-counted overlap ratio — the number of
characters of the first normalized string, with multiplicity, occurring in
the second, divided by the longer length (1 on normalized equality) — reaches
0.8; the ratio is not symmetric in its arguments. -/
theorem fuzzy_match_characterization :
    (∀ a b : String, fuzzy_match a b (4/5) = true ↔
      (a.isEmpty = false ∧ b.isEmpty = false ∧ 4/5 ≤ am_similarity a b)) ∧
    fuzzy_match "aa" "ab" (4/5) ≠ fuzzy_match "ab" "aa" (4/5) := by
  constructor
  · intro a b
    cases ha : a.isEmpty <;> cases hb : b.isEmpty
    case false.false =>
      simp only [fuzzy_match, ha, hb, Bool.or_self, Bool.false_eq_true,
        if_false]
      by_cases heq : pyNorm a = pyNorm b
      · simp only [heq, if_true, am_similarity, if_pos rfl]
        norm_num
      · by_cases hlen : max (pyNorm a).length (pyNorm b).length = 0
        · have h00 := Nat.max_eq_zero_iff.mp hlen
          simp [heq, am_similarity, h00.1, h00.2]
        · simp only [heq, if_false, hlen, am_similarity, char_overlap,
            List.countP_eq_length_filter]
          simp [List.contains]
    all_goals simp [fuzzy_match, ha, hb]
  · with_unfolding_all decide

/-- C7: the Action Planner is a deterministic function of the overall score
and the presence of an email: at score at least 0.8 the priority is high and
the actions are crm_upsert (only with an email), outreach_draft and
evidence_packet; between 0.6 and 0.8 the priority is medium with crm_upsert
(with email) and outreach_draft; below 0.6 the priority is low with at most
crm_upsert. -/
theorem action_plan_thresholds (email : Option String) (overall : ℚ) :
    ((4/5 : ℚ) ≤ overall →
      (generate_candidate_action_plan email overall).priority = "high" ∧
      (generate_candidate_action_plan email overall).actions =
        (if truthyOpt email then [PyAction.crm_upsert] else []) ++
          [PyAction.outreach_draft, PyAction.evidence_packet]) ∧
    ((3/5 : ℚ) ≤ overall → overall < 4/5 →
      (generate_candidate_action_plan email overall).priority = "medium" ∧
      (generate_candidate_action_plan email overall).actions =
        (if truthyOpt email then [PyAction.crm_upsert] else []) ++
          [PyAction.outreach_draft]) ∧
    (overall < 3/5 →
      (generate_candidate_action_plan email overall).priority = "low" ∧
      (generate_candidate_action_plan email overall).actions =
        (if truthyOpt email then [PyAction.crm_upsert] else [])) := by
  refine ⟨?_, ?_, ?_⟩
  · intro h
    have h2 : (3/5 : ℚ) ≤ overall := by linarith
    constructor
    · simp [generate_candidate_action_plan, h]
    · simp [generate_candidate_action_plan, h, h2]
  · intro h3 h4
    have hn4 : ¬ (4/5 : ℚ) ≤ overall := not_le.mpr h4
    constructor
    · simp [generate_candidate_action_plan, h3, hn4]
    · simp [generate_candidate_action_plan, h3, hn4]
  · intro h
    have hn3 : ¬ (3/5 : ℚ) ≤ overall := not_le.mpr h
    have hn4 : ¬ (4/5 : ℚ) ≤ overall := not_le.mpr (by linarith)
    constructor
    · simp [generate_candidate_action_plan, hn3, hn4]
    · simp [generate_candidate_action_plan, hn3, hn4]

/-- Witness for action_plan_thresholds: overall score 0.82 yields priority
high and an evidence_packet action. -/
theorem action_plan_thresholds_w :
    (generate_candidate_action_plan (some "jane@lab.org") (82/100)).priority = "high" ∧
    PyAction.evidence_packet ∈
      (generate_candidate_action_plan (some "jane@lab.org") (82/100)).actions := by
  have h := (action_plan_thresholds (some "jane@lab.org") (82/100)).1 (by norm_num)
  refine ⟨h.1, ?_⟩
  rw [h.2]
  with_unfolding_all decide

/-- Witness for fuzzy_match_characterization: equal non-empty strings
match. -/
theorem fuzzy_match_characterization_w :
    fuzzy_match "jane" "jane" (4/5) = true :=
  (fuzzy_match_characterization.1 "jane" "jane").mpr
    ⟨by with_unfolding_all decide, by with_unfolding_all decide,
      by with_unfolding_all decide⟩

/-- C8: the fact-key normalizer lowercases the fact before applying its
case-sensitive honorific pattern, so honorifics are never removed from fact
keys and "Dr. Jane Doe" does not normalize to the same key as "jane doe",
contrary to the code's own comment ("Remove honorifics, normalize case"); the
extractor-side normalize_name does strip the honorific but never lowercases. -/
theorem fact_key_honorific_bug :
    normalize_fact_key "Dr. Jane Doe" = "dr. jane doe" ∧
    normalize_fact_key "jane doe" = "jane doe" ∧
    normalize_name "Dr. Jane Doe" = "Jane Doe" ∧
    normalize_fact_key "Dr. Jane Doe" ≠ normalize_fact_key "jane doe" := by
  refine ⟨?_, ?_, ?_, ?_⟩ <;> with_unfolding_all decide

/-- The total_fields counter of _are_entities_same is 3 for every pair of
records: all three compared keys are always present in the extracted field
dicts, so the matched-fraction division never divides by zero. -/
theorem matchCounts_total (f1 f2 : IdFields) : (matchCounts f1 f2).2 = 3 := rfl

theorem hasNoIdentifyingFields_spec (r : ExtractedDataL)
    (hr : hasNoIdentifyingFields r = true) :
    truthyOpt r.content.email = false ∧ truthyOpt r.content.name = false ∧
      truthyOpt r.content.username = false ∧ truthyOpt r.content.phone = false ∧
      truthyOpt r.content.location = false := by
  simp only [hasNoIdentifyingFields, Bool.and_eq_true, Bool.not_eq_true'] at hr
  exact ⟨hr.1.1.1.1, hr.1.1.1.2, hr.1.1.2, hr.1.2, hr.2⟩

theorem are_entities_same_noid_left (r d : ExtractedDataL)
    (hr : hasNoIdentifyingFields r = true) : are_entities_same r d = false := by
  obtain ⟨he, hn, hu, -, -⟩ := hasNoIdentifyingFields_spec r hr
  have h1 : (matchCounts r.content d.content).1 = 0 := by
    simp [matchCounts, keyFieldGetters, he, hn, hu]
  simp [are_entities_same, h1]

theorem are_entities_same_noid_right (r d : ExtractedDataL)
    (hr : hasNoIdentifyingFields r = true) : are_entities_same d r = false := by
  obtain ⟨he, hn, hu, -, -⟩ := hasNoIdentifyingFields_spec r hr
  have h1 : (matchCounts d.content r.content).1 = 0 := by
    simp [matchCounts, keyFieldGetters, he, hn, hu]
  simp [are_entities_same, h1]

theorem groupEntitiesAux_flatten_perm :
    ∀ (fuel : ℕ) (l : List ExtractedDataL), l.length ≤ fuel →
      (groupEntitiesAux fuel l).flatten.Perm l := by
  intro fuel
  induction fuel with
  | zero =>
    intro l hl
    have : l = [] := List.eq_nil_of_length_eq_zero (Nat.le_zero.mp hl)
    rw [this]
    exact List.Perm.refl _
  | succ fuel ih =>
    intro l hl
    cases l with
    | nil => exact List.Perm.refl _
    | cons d ds =>
      have hrest : (ds.filter (fun x => !are_entities_same d x)).length ≤ fuel := by
        have h1 := List.length_filter_le (fun x => !are_entities_same d x) ds
        have h2 : ds.length ≤ fuel := Nat.lt_succ_iff.mp hl
        exact le_trans h1 h2
      have hperm := ih (ds.filter (fun x => !are_entities_same d x)) hrest
      show ((d :: ds.filter (fun x => are_entities_same d x)) ::
        groupEntitiesAux fuel (ds.filter (fun x => !are_entities_same d x))).flatten.Perm (d :: ds)
      rw [List.flatten_cons, List.cons_append]
      refine List.Perm.cons d ?_
      exact List.Perm.trans (List.Perm.append_left _ hperm)
        (List.filter_append_perm _ ds)

theorem groupEntitiesAux_singleton :
    ∀ (fuel : ℕ) (l : List ExtractedDataL) (r : ExtractedDataL),
      hasNoIdentifyingFields r = true →
      ∀ g ∈ groupEntitiesAux fuel l, r ∈ g → g = [r] := by
  intro fuel
  induction fuel with
  | zero =>
    intro l r hr g hg
    cases l with
    | nil => exact absurd hg (List.not_mem_nil g)
    | cons d ds => exact absurd hg (List.not_mem_nil g)
  | succ fuel ih =>
    intro l r hr g hg hrg
    cases l with
    | nil => exact absurd hg (List.not_mem_nil g)
    | cons d ds =>
      rcases List.mem_cons.mp hg with hgd | hgrest
      · rw [hgd] at hrg
        rcases List.mem_cons.mp hrg with hrd | hrf
        · rw [hgd, ← hrd]
          have hfil : ds.filter (fun x => are_entities_same r x) = [] := by
            apply List.filter_eq_nil_iff.mpr
            intro x _
            simp [are_entities_same_noid_left r x hr]
          rw [hfil]
        · exfalso
          have := List.of_mem_filter hrf
          rw [are_entities_same_noid_right r d hr] at this
          exact Bool.false_ne_true this
      · exact ih _ r hr g hgrest hrg

theorem flatten_count_eq (r : ExtractedDataL) :
    ∀ G : List (List ExtractedDataL),
      G.flatten.count r = (G.map (List.count r)).sum := by
  intro G
  induction G with
  | nil => rfl
  | cons g gs ih =>
    rw [List.flatten_cons, List.count_append, List.map_cons, List.sum_cons, ih]

theorem count_sum_eq_countP (r : ExtractedDataL) :
    ∀ G : List (List ExtractedDataL), (∀ g ∈ G, r ∈ g → g = [r]) →
      (G.map (List.count r)).sum = G.countP (fun g => decide (r ∈ g)) := by
  intro G
  induction G with
  | nil => intro _; rfl
  | cons g gs ih =>
    intro h
    rw [List.map_cons, List.sum_cons, List.countP_cons,
      ih (fun g hg => h g (List.mem_cons_of_mem _ hg))]
    by_cases hm : r ∈ g
    · have hg : g = [r] := h g (List.mem_cons_self _ _) hm
      rw [hg]
      simp [List.count_cons]
      omega
    · rw [List.count_eq_zero.mpr hm]
      simp [hm]

theorem resolution_confidence_singleton (x : ExtractedDataL) :
    calculate_resolution_confidence [x] = qmin 1 x.confidence_score := by
  rw [calculate_resolution_confidence, if_neg (by simp)]
  norm_num [qmin]

/-- C9: a record with no identifying fields still yields exactly one
ProcessedCandidate.  The comparison loop always counts three comparable
fields, so the matched-fraction division never divides by zero; entity
grouping is a partition of the input (its clusters flatten to a permutation
of the input list); the field-less record always sits in a singleton cluster;
when it occurs once in the input, exactly one cluster contains it; and its
candidate's confidence is min(1, its own extraction confidence) — defined,
just without any multi-source bonus. -/
theorem no_identifying_fields_safe (l : List ExtractedDataL) (r : ExtractedDataL)
    (hr : hasNoIdentifyingFields r = true) (hcount : l.count r = 1) :
    (∀ f1 f2 : IdFields, (matchCounts f1 f2).2 = 3) ∧
    (resolve_entities l).length = (group_entities l).length ∧
    (group_entities l).flatten.Perm l ∧
    (∀ g ∈ group_entities l, r ∈ g → g = [r]) ∧
    (group_entities l).countP (fun g => decide (r ∈ g)) = 1 ∧
    (∀ cand ∈ resolve_entities l, r ∈ cand.source_data →
      cand.confidence_score = qmin 1 r.confidence_score) := by
  have hperm : (group_entities l).flatten.Perm l :=
    groupEntitiesAux_flatten_perm l.length l (le_refl _)
  have hsing : ∀ g ∈ group_entities l, r ∈ g → g = [r] :=
    groupEntitiesAux_singleton l.length l r hr
  refine ⟨fun f1 f2 => matchCounts_total f1 f2, ?_, hperm, hsing, ?_, ?_⟩
  · rw [resolve_entities, List.length_map]
  · have h1 : (group_entities l).flatten.count r = l.count r := hperm.count_eq r
    rw [flatten_count_eq r (group_entities l),
      count_sum_eq_countP r (group_entities l) hsing] at h1
    exact h1.trans hcount
  · intro cand hcand hrc
    obtain ⟨g, hgmem, hgeq⟩ := List.mem_map.mp hcand
    have hgr : r ∈ g := by
      rw [← hgeq] at hrc
      exact hrc
    have hg : g = [r] := hsing g hgmem hgr
    rw [← hgeq]
    show calculate_resolution_confidence g = qmin 1 r.confidence_score
    rw [hg]
    exact resolution_confidence_singleton r

/-- Witness for no_identifying_fields_safe on a concrete two-record input. -/
theorem no_identifying_fields_safe_w :
    hasNoIdentifyingFields recordNoFields = true ∧
    (group_entities [recordNoFields, recordWithEmail]).countP
      (fun g => decide (recordNoFields ∈ g)) = 1 :=
  ⟨by with_unfolding_all decide,
    (no_identifying_fields_safe [recordNoFields, recordWithEmail] recordNoFields
      (by with_unfolding_all decide) (by with_unfolding_all decide)).2.2.2.2.1⟩

end MementoAI
